import Mathlib

/-!
Verification of the bear HTTP router (github.com/ursiform/bear).

The development shallowly embeds the router's data model and algorithms:
pattern/path parsing (`parsePath`, `parsePattern`, `sanitize`, `split`),
trie construction (`setGo`, `Mux.on`), and the two matchers: the
`ServeHTTP` walk of mux.go (`Mux.serve`) and the `find` walk of bear.go.
Go maps become association lists, Go slices become lists (a nil slice and
an empty slice are indistinguishable everywhere the router inspects them,
so both are the empty list), and invoking `handlers[0]` on an empty chain
is modelled as the explicit outcome `Outcome.panicked`.
-/

namespace Bear

/-- Go regexp `\w`: ASCII letters, digits, underscore. -/
def isWordChar (c : Char) : Bool := c.isAlphanum || c = '_'

/-- The call `strings.SplitAfter(s, "/")`: split after every separator, keeping it;
the final piece (after the last separator) is always present, possibly empty. -/
def splitAfterSlash : List Char → List (List Char)
  | [] => [[]]
  | c :: rest =>
    if c = '/' then ['/'] :: splitAfterSlash rest
    else
      match splitAfterSlash rest with
      | [] => [[c]]
      | p :: ps => (c :: p) :: ps

/-- Modelled from the spec: the `dbl` regular expression used by
`parsePattern` in mux.go is not part of the sources; the spec says
"collapse any run of consecutive separators into one", which this
implements. The Boolean argument records whether the previous
character was a separator. -/
def collapseAux : Bool → List Char → List Char
  | _, [] => []
  | prev, c :: rest =>
    if c = '/' then
      if prev then collapseAux true rest else '/' :: collapseAux true rest
    else c :: collapseAux false rest

/-- Modelled from the spec: `dbl.ReplaceAllString(s, slash)` with a
run-collapsing `dbl`. -/
def collapseSlashes (l : List Char) : List Char := collapseAux false l

/-- The call `strings.Replace(s, "//", "/", -1)`: one left-to-right pass replacing
non-overlapping separator pairs (a run of three separators leaves two). -/
def replaceDbl : List Char → List Char
  | '/' :: '/' :: rest => '/' :: replaceDbl rest
  | c :: rest => c :: replaceDbl rest
  | [] => []

/-- The regexp `\{(\w+)\}` applied by `FindStringSubmatch`: the leftmost
brace-delimited nonempty word, if any, is the captured parameter name. -/
def findBraced : List Char → Option String
  | [] => none
  | c :: rest =>
    if c = '{' then
      match rest.dropWhile isWordChar with
      | '}' :: _ =>
        if rest.takeWhile isWordChar = [] then findBraced rest
        else some (String.mk (rest.takeWhile isWordChar))
      | _ => findBraced rest
    else findBraced rest

/-- Append a trailing separator to the last element of a list of segments
(`components[last] = components[last] + slash` in `parsePath`). -/
def appSlashLast : List String → List String
  | [] => []
  | [p] => [p ++ "/"]
  | p :: ps => p :: appSlashLast ps

/-- Char-level counterpart of `appSlashLast`, used to relate splitting a
string to splitting the same string with one more trailing separator. -/
def appSlashLastC : List (List Char) → List (List Char)
  | [] => []
  | [p] => [p ++ ['/']]
  | p :: ps => p :: appSlashLastC ps

/-- Function `parsePath` of mux.go: split an incoming request path into components,
each carrying its trailing separator. The leading separator piece and the
empty trailing piece are trimmed per the `start`/`offset` logic; no
separator collapsing happens here. (Go panics on the empty string; the
caller guards it, and we return `[]`.) -/
def parsePath (s : String) : List String :=
  match s.data with
  | [] => []
  | c :: _ =>
    let start : Nat := if c = '/' then 1 else 0
    let offset : Nat := if s.data.getLast? = some '/' then 1 else 0
    let comps0 := (splitAfterSlash s.data).map String.mk
    let comps1 := comps0.drop start
    let comps2 := if offset = 1 then comps1.dropLast else comps1
    if offset = 0 then appSlashLast comps2 else comps2

/-- The boundary-separator normalization shared by `parsePattern` and
`sanitize`: prefix a separator when the first byte is not one, suffix a
separator when the last byte is not one. -/
def withBoundarySlashes (s : String) : String :=
  let s1 := if s.data.head? = some '/' then s else "/" ++ s
  if s1.data.getLast? = some '/' then s1 else s1 ++ "/"

/-- Function `parsePattern` of mux.go: ensure boundary separators, collapse runs of
separators (the `dbl` regexp, modelled from the spec), split after
separators and strip the leading `"/"` piece and the trailing empty piece.
Returns the normalized pattern and its components. -/
def parsePattern (s : String) : String × List String :=
  let pat := String.mk (collapseSlashes (withBoundarySlashes s).data)
  let comps := ((splitAfterSlash pat.data).map String.mk).drop 1 |>.dropLast
  (pat, comps)

/-- Function `sanitize` of bear.go: be nice about empty and root strings, ensure
boundary separators, then single-pass replace separator pairs. -/
def sanitize (s : String) : String :=
  if s = "" ∨ s = "/" then "/"
  else String.mk (replaceDbl (withBoundarySlashes s).data)

/-- Function `split` of bear.go: `SplitAfter(sanitize(s), "/")` with empty pieces
dropped. -/
def split (s : String) : List String :=
  (((splitAfterSlash (sanitize s).data).map String.mk).filter (· ≠ ""))

/-- The sentinel child key reserved for the named-parameter slot. -/
def dynamicKey : String := "\x00"

/-- The sentinel child key reserved for the wildcard slot. -/
def wildcardKey : String := "\x00\x00"

/-- The reserved wildcard parameter name. -/
def asteriskS : String := "*"

/-- A wildcard component as produced by pattern splitting (`"*/"`). -/
def lasteriskS : String := "*/"

/-- Go slice `value[:len(value)-1]`: strip the trailing separator of a bound value. -/
def dropSlash (s : String) : String := String.mk s.data.dropLast

/-- The call `strings.Join(components, "")`. -/
def joinAll (l : List String) : String := String.join l

/-- The `tree` struct: one trie node. `children` models the Go
`map[string]*tree` as an association list with unique keys; a nil map and
an empty map behave identically everywhere the router reads them. -/
structure Tree (H : Type) where
  children : List (String × Tree H)
  handlers : List H
  name : String
  pattern : String

/-- Association-list lookup, the read of `(*current)[key]`. -/
def lookupA {α : Type} : List (String × α) → String → Option α
  | [], _ => none
  | (k, v) :: rest, key => if k = key then some v else lookupA rest key

/-- Association-list write, the map assignment `m[key] = value`. -/
def updA {α : Type} : List (String × α) → String → α → List (String × α)
  | [], key, value => [(key, value)]
  | (k, v) :: rest, key, value =>
    if k = key then (key, value) :: rest else (k, v) :: updA rest key value

/-- A node freshly created during insertion:
`&tree{children: make(map[string]*tree), name: name}`. -/
def Tree.fresh {H : Type} (name : String) : Tree H :=
  { children := [], handlers := [], name := name, pattern := "" }

/-- Go's `new(tree)`: the zero-valued node (used by bear.go's `find` as the
initial, never-nil `wild`). -/
def Tree.zero {H : Type} : Tree H :=
  { children := [], handlers := [], name := "", pattern := "" }

/-- Registration errors. The Go code returns `fmt.Errorf` strings; only
the kind of failure matters to the claims, so errors are an enumeration:
`dup` is "bear: VERB PATTERN exists, ignoring", `wildNotLast` is
"bear: ... wildcard (*) token must be last", `invalidVerb` is
"bear: VERB isn't a valid HTTP verb". -/
inductive RegErr where
  | dup
  | wildNotLast
  | invalidVerb
  deriving DecidableEq

/-- The token classification inside `set`'s loop: the `dyn` regexp match
makes the component dynamic, else the exact string `"*/"` makes it the
wildcard, else it is static. Returns the child key and the node name. -/
def classify (c : String) : String × String :=
  match findBraced c.data with
  | some w => (dynamicKey, w)
  | none => if c = lasteriskS then (wildcardKey, asteriskS) else (c, "")

/-- The loop of `set` in mux.go, descending the components and creating
missing nodes. Returns the updated children map, the `wild` flag, and the
error. On the error paths Go explicitly returns `wild = false`; on
success `wild` reports whether the (final) component was a wildcard. The
`[]` case is Go's unreachable trailing `return`. -/
def setLoop {H : Type} (pat : String) (handlers : List H) :
    List String → List (String × Tree H) →
    List (String × Tree H) × Bool × Option RegErr
  | [], cur => (cur, false, none)
  | c :: rest, cur =>
    let key := (classify c).1
    let node : Tree H :=
      match lookupA cur key with
      | some n => n
      | none => Tree.fresh (classify c).2
    let cur' : List (String × Tree H) :=
      match lookupA cur key with
      | some _ => cur
      | none => updA cur key node
    if rest = [] then
      if node.handlers.isEmpty = false then (cur', false, some .dup)
      else (updA cur' key { node with pattern := pat, handlers := handlers },
            key = wildcardKey, none)
    else if key = wildcardKey then (cur', false, some .wildNotLast)
    else
      let r := setLoop pat handlers rest node.children
      (updA cur' key { node with children := r.1 },
       if r.2.2.isSome then false else r.2.1, r.2.2)

/-- Function `set` of mux.go: register `pattern` with `handlers` on the verb tree
`tr`. A root pattern (`"/"` or `""`) lands on the root node itself;
otherwise the parsed components are walked by `setLoop`. Returns the
updated tree, the wildcard flag and the error. -/
def setGo {H : Type} (tr : Tree H) (pattern : String) (handlers : List H) :
    Tree H × Bool × Option RegErr :=
  if pattern = "/" ∨ pattern = "" then
    if tr.handlers.isEmpty = false then (tr, false, some .dup)
    else ({ tr with pattern := "/", handlers := handlers }, false, none)
  else
    let pc := parsePattern pattern
    let r := setLoop pc.1 handlers pc.2 tr.children
    ({ tr with children := r.1 }, r.2.1, r.2.2)

/-- The eight recognized HTTP verbs. -/
def verbs : List String :=
  ["CONNECT", "DELETE", "GET", "HEAD", "OPTIONS", "POST", "PUT", "TRACE"]

/-- The `Mux` struct of mux.go: one tree per verb plus the
has-wildcard-anywhere flag. -/
structure Mux (H : Type) where
  connect : Tree H
  delete : Tree H
  get : Tree H
  head : Tree H
  options : Tree H
  post : Tree H
  put : Tree H
  trace : Tree H
  wild : Bool

/-- Constructor `New()`: eight empty trees, no wildcard. -/
def Mux.new {H : Type} : Mux H :=
  ⟨Tree.zero, Tree.zero, Tree.zero, Tree.zero,
   Tree.zero, Tree.zero, Tree.zero, Tree.zero, false⟩

/-- Method `mux.tree(name)`: the verb table; unrecognized names yield no tree. -/
def Mux.treeFor {H : Type} (m : Mux H) : String → Option (Tree H)
  | "CONNECT" => some m.connect
  | "DELETE" => some m.delete
  | "GET" => some m.get
  | "HEAD" => some m.head
  | "OPTIONS" => some m.options
  | "POST" => some m.post
  | "PUT" => some m.put
  | "TRACE" => some m.trace
  | _ => none

/-- Store a (mutated) verb tree back into the mux; unrecognized verbs
leave it unchanged (Go mutates through the pointer `mux.tree` returned). -/
def Mux.setTree {H : Type} (m : Mux H) (verb : String) (t : Tree H) : Mux H :=
  match verb with
  | "CONNECT" => { m with connect := t }
  | "DELETE" => { m with delete := t }
  | "GET" => { m with get := t }
  | "HEAD" => { m with head := t }
  | "OPTIONS" => { m with options := t }
  | "POST" => { m with post := t }
  | "PUT" => { m with put := t }
  | "TRACE" => { m with trace := t }
  | _ => m

/-- Method `On` for a single concrete verb (the non-`"*"` branch of mux.go's
`On`). Handlers arrive already in their uniform internal shape, so the
`handlerize` type dispatch is not modelled; its only relevant behavior —
an empty argument list yields a nil chain and no error — holds here
trivially. Note that `set`'s mutations survive even when it returns an
error, and `mux.wild` is only updated on success. -/
def Mux.onVerb {H : Type} (m : Mux H) (verb pattern : String)
    (handlers : List H) : Mux H × Option RegErr :=
  match m.treeFor verb with
  | none => (m, some .invalidVerb)
  | some tr =>
    let r := setGo tr pattern handlers
    match r.2.2 with
    | some e => (m.setTree verb r.1, some e)
    | none => ({ m.setTree verb r.1 with wild := m.wild || r.2.1 }, none)

/-- The `verb == "*"` loop of `On`: register under every recognized verb,
aborting at the first failure with no rollback. -/
def Mux.onList {H : Type} (m : Mux H) :
    List String → String → List H → Mux H × Option RegErr
  | [], _, _ => (m, none)
  | v :: rest, pattern, handlers =>
    match Mux.onVerb m v pattern handlers with
    | (m', some e) => (m', some e)
    | (m', none) => Mux.onList m' rest pattern handlers

/-- Method `On` of mux.go. -/
def Mux.on {H : Type} (m : Mux H) (verb pattern : String)
    (handlers : List H) : Mux H × Option RegErr :=
  if verb = "*" then m.onList verbs pattern handlers
  else m.onVerb verb pattern handlers

/-- The observable result of dispatching one request. `served t params`
is the invocation of `t.handlers[0]` with a context whose `Params` are
`params`; `panicked` is Go's runtime panic from indexing `handlers[0]` on
a nil chain; `noResponse` is the (unreachable) fall-through when the
component loop exhausts without returning. -/
inductive Outcome (H : Type) where
  | notFound
  | panicked
  | noResponse
  | served (t : Tree H) (params : List (String × String))

/-- The pattern of the matched route, when one was served. -/
def Outcome.patternOf {H : Type} : Outcome H → Option String
  | .served t _ => some t.pattern
  | _ => none

/-- The bound parameters of the matched route, when one was served. -/
def Outcome.paramsOf {H : Type} : Outcome H → Option (List (String × String))
  | .served _ p => some p
  | _ => none

/-- The handler chain of the matched route, when one was served. -/
def Outcome.chainOf {H : Type} : Outcome H → Option (List H)
  | .served t _ => some t.handlers
  | _ => none

/-- The invocation `wild.handlers[0](res, req, context)` guarded by `nil == wild`:
serving the tracked wildcard (or not-found when none is tracked). An
empty chain panics, as Go's index expression does. -/
def serveWildFallback {H : Type} (w : Option (Tree H))
    (params : List (String × String)) : Outcome H :=
  match w with
  | none => .notFound
  | some t => if t.handlers.isEmpty then .panicked else .served t params

/-- The simple (`!mux.wild`) component loop of `ServeHTTP` in mux.go:
exact static child first, else the named slot (binding its name to the
segment), else not-found; at the final component the resolved node must
carry a non-empty chain. -/
def serveSimple {H : Type} :
    List String → List (String × Tree H) → List (String × String) → Outcome H
  | [], _, _ => .noResponse
  | c :: rest, cur, params =>
    if cur.isEmpty then .notFound
    else
      let resolved : Option (Tree H × List (String × String)) :=
        match lookupA cur c with
        | some node => some (node, params)
        | none =>
          match lookupA cur dynamicKey with
          | none => none
          | some node => some (node, updA params node.name (dropSlash c))
      match resolved with
      | none => .notFound
      | some (node, params') =>
        if rest = [] then
          if node.handlers.isEmpty then .notFound else .served node params'
        else serveSimple rest node.children params'

/-- The wildcard-aware component loop of `ServeHTTP` in mux.go. `wild` is
the most proximate wildcard node recorded so far. Resolution of the
current component either short-circuits to an outcome (`Sum.inl`) or
yields the node to descend into together with the updated `wild` and
parameters (`Sum.inr`). After descending, a wildcard child of the new
position is recorded and — exactly as in the source — bound to
`strings.Join(components[index:], "")`, which still includes the segment
just consumed; the binding is overwritten with the correct remainder if
the wildcard is reached later at its own position. -/
def serveWild {H : Type} :
    List String → List (String × Tree H) → Option (Tree H) →
    List (String × String) → Outcome H
  | [], _, _, _ => .noResponse
  | c :: rest, cur, wild, params =>
    if cur.isEmpty then serveWildFallback wild params
    else
      let r : Outcome H ⊕ (Tree H × Option (Tree H) × List (String × String)) :=
        match lookupA cur c with
        | some node => .inr (node, wild, params)
        | none =>
          if (lookupA cur dynamicKey).isNone && (lookupA cur wildcardKey).isNone then
            .inl (serveWildFallback wild params)
          else
            let wp : Option (Tree H) × List (String × String) :=
              match lookupA cur wildcardKey with
              | some w2 =>
                (some w2, updA params asteriskS (dropSlash (joinAll (c :: rest))))
              | none => (wild, params)
            match lookupA cur dynamicKey with
            | some dn => .inr (dn, wp.1, updA wp.2 dn.name (dropSlash c))
            | none => .inl (serveWildFallback wp.1 wp.2)
      match r with
      | .inl o => o
      | .inr (node, wild', params') =>
        if rest = [] then
          if node.handlers.isEmpty then .notFound else .served node params'
        else
          let cur2 := node.children
          match lookupA cur2 wildcardKey with
          | some w3 =>
            serveWild rest cur2 (some w3)
              (updA params' asteriskS (dropSlash (joinAll (c :: rest))))
          | none => serveWild rest cur2 wild' params'

/-- Method `ServeHTTP` of mux.go: unrecognized verbs are not-found; the root
path is the special case served from the root node or its wildcard child;
otherwise the parsed components are walked by the simple or the
wildcard-aware loop according to `mux.wild`. -/
def Mux.serve {H : Type} (m : Mux H) (method path : String) : Outcome H :=
  match m.treeFor method with
  | none => .notFound
  | some tr =>
    if path = "/" ∨ path = "" then
      if tr.handlers.isEmpty = false then .served tr []
      else
        match lookupA tr.children wildcardKey with
        | some w => if w.handlers.isEmpty then .panicked else .served w []
        | none => .notFound
    else
      let comps := parsePath path
      if m.wild = false then serveSimple comps tr.children []
      else serveWild comps tr.children (lookupA tr.children wildcardKey) []

/-- The component loop of `find` in bear.go. Unlike mux.go's loop, `wild`
here is a plain node, never nil: it starts as `new(tree)` and is only
ever replaced by actual wildcard children, so the source's `nil == wild`
branches are unreachable and are omitted. When a component resolves to a
node, reaching the last component with an empty handler chain falls back
to `wild` (`(*current)[key].handlers == nil && wild != nil`); otherwise
the resolved node is returned. The exhausted case is the source's final
`return nil, context`. -/
def findLoop {H : Type} :
    List String → List (String × Tree H) → Tree H →
    List (String × String) → Option (Tree H) × List (String × String)
  | [], _, _, params => (none, params)
  | c :: rest, cur, wild, params =>
    if cur.isEmpty then (some wild, params)
    else
      let r : (Option (Tree H) × List (String × String)) ⊕
              (Tree H × Tree H × List (String × String)) :=
        match lookupA cur c with
        | some node => .inr (node, wild, params)
        | none =>
          if (lookupA cur dynamicKey).isNone && (lookupA cur wildcardKey).isNone
          then .inl (some wild, params)
          else
            let wp : Tree H × List (String × String) :=
              match lookupA cur wildcardKey with
              | some w2 =>
                (w2, updA params w2.name (dropSlash (joinAll (c :: rest))))
              | none => (wild, params)
            match lookupA cur dynamicKey with
            | some dn => .inr (dn, wp.1, updA wp.2 dn.name (dropSlash c))
            | none => .inr (wp.1, wp.1, wp.2)
      match r with
      | .inl o => o
      | .inr (node, wild', params') =>
        if rest = [] then
          if node.handlers.isEmpty then (some wild', params')
          else (some node, params')
        else
          let cur2 := node.children
          match lookupA cur2 wildcardKey with
          | some w3 =>
            findLoop rest cur2 w3
              (updA params' (w3.name) (dropSlash (joinAll (c :: rest))))
          | none => findLoop rest cur2 wild' params'

/-- Function `find` of bear.go: locate the node matching `path` in the verb tree
`tr`, together with the bound parameters and the matched pattern string.
The root path (a single split component) is served from the root node or
else from `wild` — which is the root's wildcard child if one exists and
otherwise the zero node, whose empty chain makes `deploy` answer
not-found. -/
def find {H : Type} (tr : Tree H) (path : String) :
    Option (Tree H) × List (String × String) × String :=
  let comps := split path
  let wild0 :=
    match lookupA tr.children wildcardKey with
    | some w => w
    | none => Tree.zero
  if comps.length - 1 = 0 then
    if tr.handlers.isEmpty = false then (some tr, [], tr.pattern)
    else (some wild0, [], wild0.pattern)
  else
    let r := findLoop (comps.drop 1) tr.children wild0 []
    (r.1, r.2, match r.1 with | some t => t.pattern | none => "")

/-- Function `deploy` of bear.go: run `find` and answer not-found when no node was
located or the located node carries no handler chain; otherwise invoke
`location.handlers[0]`. -/
def deploy {H : Type} (tr : Option (Tree H)) (path : String) : Outcome H :=
  match tr with
  | none => .notFound
  | some t =>
    match find t path with
    | (none, _, _) => .notFound
    | (some loc, params, _) =>
      if loc.handlers.isEmpty then .notFound else .served loc params

/-- A deep embedding of the handler bodies exercised by the middleware
claims: a bear handler is a sequence of steps, each either writing a
scratch key (`ctx.State[k] = v` / `ctx.Set`) or calling `ctx.Next`. -/
inductive Act where
  | setK (k : String) (v : Nat)
  | next

/-- A handler chain: one action list per handler. -/
abbrev Chain := List (List Act)

/-- The per-request dispatch context relevant to chain execution: the
scratch state and the chain cursor (`Context.handler`). -/
structure MCtx where
  state : List (String × Nat)
  cursor : Nat

/-- Execute one handler body step by step, threading the context and
accumulating the log of invoked handler indices. The `.next` step is
`ctx.Next` of bear.go inlined (see `nextFn`): increment the cursor and,
if a handler exists at the new cursor, invoke it with the same context;
otherwise do nothing. The fuel only bounds recursion and is irrelevant
once large enough (the cursor strictly increases across invocations, so
any fuel beyond the total number of steps is never exhausted). -/
def runActs (chain : Chain) : Nat → List Act → MCtx → MCtx × List Nat
  | _, [], ctx => (ctx, [])
  | 0, _ :: _, ctx => (ctx, [])
  | fuel + 1, .setK k v :: rest, ctx =>
    runActs chain fuel rest { ctx with state := updA ctx.state k v }
  | fuel + 1, .next :: rest, ctx =>
    let ctx' : MCtx := { ctx with cursor := ctx.cursor + 1 }
    let r1 : MCtx × List Nat :=
      match chain.drop ctx'.cursor with
      | [] => (ctx', [])
      | acts :: _ =>
        let r := runActs chain fuel acts ctx'
        (r.1, ctx'.cursor :: r.2)
    let r2 := runActs chain fuel rest r1.1
    (r2.1, r1.2 ++ r2.2)

/-- Method `Next` of the Context (part_001 lines 44-50), instrumented with
the invocation log: `ctx.handler++`, then if `len(ctx.tree.handlers) >
ctx.handler` invoke `ctx.tree.handlers[ctx.handler]` with the same
context; if no next handler exists this is a no-op, not an error. -/
def nextFn (chain : Chain) (fuel : Nat) (ctx : MCtx) : MCtx × List Nat :=
  let ctx' : MCtx := { ctx with cursor := ctx.cursor + 1 }
  match chain.drop ctx'.cursor with
  | [] => (ctx', [])
  | acts :: _ =>
    let r := runActs chain fuel acts ctx'
    (r.1, ctx'.cursor :: r.2)

/-- Dispatch of a matched route's chain: `handlers[0]` is invoked with a
fresh context (cursor 0, empty scratch state); an empty chain is the
panic case, answered `none` here because every call site guards it. -/
def dispatchChain (chain : Chain) (fuel : Nat) : Option (MCtx × List Nat) :=
  match chain with
  | [] => none
  | acts :: _ =>
    let r := runActs chain fuel acts ⟨[], 0⟩
    some (r.1, 0 :: r.2)

/-! ### Concrete fixtures used by the claim theorems -/

/-- A mux with the three competing wildcard routes of the spec's example,
all registered under GET. -/
def muxC1 : Mux Unit :=
  (((Mux.new.on "GET" "/*" [()]).1.on "GET" "/foo/*" [()]).1.on
    "GET" "/foo/bar/*" [()]).1

/-- A mux whose only route under verb `v` is the wildcard `/foo/bar/*`. -/
def muxC2 (v : String) : Mux Unit := (Mux.new.on v "/foo/bar/*" [()]).1

/-- A mux with a GET root handler and a GET root-level wildcard. -/
def muxC3both : Mux Unit :=
  ((Mux.new.on "GET" "/" [()]).1.on "GET" "/*" [()]).1

/-- A mux with only a GET root-level wildcard (no root handler). -/
def muxC3wild : Mux Unit := (Mux.new.on "GET" "/*" [()]).1

/-- A mux with a GET wildcard `/foo/*` and a GET static route
`/foo/bar/baz`: a request for `/foo/bar` consumes its final segment at
the intermediate `bar` node, which has children but no handlers, while
the wildcard at `foo` has been recorded. -/
def muxC4 : Mux Unit :=
  ((Mux.new.on "GET" "/foo/*" [()]).1.on "GET" "/foo/bar/baz" [()]).1

/-- A mux with `/foo/{a}/x` registered before `/foo/{b}/y` under GET:
both patterns route through the single shared named slot below `foo`. -/
def muxC8 : Mux Unit :=
  ((Mux.new.on "GET" "/foo/{a}/x" [()]).1.on "GET" "/foo/{b}/y" [()]).1

/-- The three-handler chain of the middleware test: the first two
handlers each set a distinct scratch key and call Next; the last one
only writes its own key. -/
def chain3 : Chain :=
  [[.setK "one" 1, .next], [.setK "two" 2, .next], [.setK "last" 9]]

/-- Like `chain3` but the final handler also calls Next, which must be a
no-op because no further handler exists. -/
def chain3b : Chain :=
  [[.setK "one" 1, .next], [.setK "two" 2, .next], [.setK "last" 9, .next]]

/-- A mux carrying `chain3` on the two-parameter pattern of the
middleware test, registered under verb `v`. -/
def muxC9 (v : String) : Mux (List Act) :=
  (Mux.new.on v "/foo/{bar}/baz/{qux}" chain3).1

/-! ### Helper lemmas -/

theorem lookupA_updA_self {α : Type} (m : List (String × α)) (k : String)
    (v : α) : lookupA (updA m k v) k = some v := by
  induction m with
  | nil => simp [updA, lookupA]
  | cons p rest ih =>
    by_cases h : p.1 = k <;> simp [updA, lookupA, h, ih]

theorem updA_self {α : Type} (m : List (String × α)) (k : String) (v : α)
    (h : lookupA m k = some v) : updA m k v = m := by
  induction m with
  | nil => simp [lookupA] at h
  | cons p rest ih =>
    obtain ⟨k', v'⟩ := p
    by_cases hk : k' = k
    · simp [lookupA, hk] at h
      simp [updA, hk, ← h]
    · simp [lookupA, hk] at h
      simp [updA, hk, ih h]

theorem updA_updA {α : Type} (m : List (String × α)) (k : String)
    (v w : α) : updA (updA m k v) k w = updA m k w := by
  induction m with
  | nil => simp [updA]
  | cons p rest ih =>
    by_cases h : p.1 = k <;> simp [updA, h, ih]

/-! ### Claim theorems -/

/-- C1: with the wildcard routes `/*`, `/foo/*` and `/foo/bar/*` all
registered under GET, matching resolves to the deepest wildcard whose
prefix the request path extends: `/foo/bar/bar/baz` matches the route
`/foo/bar/*` binding `*` to "bar/baz", `/foo/baz` matches `/foo/*`
(binding `*` to "baz"), and `/bar/baz` matches `/*` (binding `*` to
"bar/baz"). Routes are identified by the normalized pattern string the
registration stored on the matched node. -/
theorem c1_competing_wildcards_most_proximate :
    (muxC1.serve "GET" "/foo/bar/bar/baz").patternOf = some "/foo/bar/*/" ∧
    (muxC1.serve "GET" "/foo/bar/bar/baz").paramsOf = some [("*", "bar/baz")] ∧
    (muxC1.serve "GET" "/foo/baz").patternOf = some "/foo/*/" ∧
    (muxC1.serve "GET" "/foo/baz").paramsOf = some [("*", "baz")] ∧
    (muxC1.serve "GET" "/bar/baz").patternOf = some "/*/" ∧
    (muxC1.serve "GET" "/bar/baz").paramsOf = some [("*", "bar/baz")] :=
  ⟨rfl, rfl, rfl, rfl, rfl, rfl⟩

/-- C2: a wildcard never matches a request with zero remaining segments
to bind (apart from the root special case): for every recognized verb,
with only `/foo/bar/*` registered, a request for `/foo/bar` is
not-found, while `/foo/bar/baz/qux` matches that route and binds `*` to
"baz/qux" (the remaining segments rejoined with the trailing separator
stripped). -/
theorem c2_wildcard_rejects_empty_remainder :
    ∀ v ∈ verbs,
      (muxC2 v).serve v "/foo/bar" = .notFound ∧
      ((muxC2 v).serve v "/foo/bar/baz/qux").patternOf = some "/foo/bar/*/" ∧
      ((muxC2 v).serve v "/foo/bar/baz/qux").paramsOf =
        some [("*", "baz/qux")] := by
  intro v hv
  fin_cases hv <;> exact ⟨rfl, rfl, rfl⟩

/-- Witness for C2 at the verb GET. -/
theorem c2_wildcard_rejects_empty_remainder_witness :
    (muxC2 "GET").serve "GET" "/foo/bar" = .notFound ∧
    ((muxC2 "GET").serve "GET" "/foo/bar/baz/qux").patternOf =
      some "/foo/bar/*/" ∧
    ((muxC2 "GET").serve "GET" "/foo/bar/baz/qux").paramsOf =
      some [("*", "baz/qux")] :=
  c2_wildcard_rejects_empty_remainder "GET" (by decide)

/-- C3: for a request whose path is exactly the root path, if the verb's
root node carries a handler chain the root route is used; otherwise a
registered root-level wildcard route matches; otherwise the result is
not-found. The root handler always takes precedence over `/*`. -/
theorem c3_root_special_case {H : Type} (m : Mux H) (verb : String)
    (tr : Tree H) (hmt : m.treeFor verb = some tr) :
    (tr.handlers ≠ [] → m.serve verb "/" = .served tr []) ∧
    (tr.handlers = [] → ∀ w, lookupA tr.children wildcardKey = some w →
      w.handlers ≠ [] → m.serve verb "/" = .served w []) ∧
    (tr.handlers = [] → lookupA tr.children wildcardKey = none →
      m.serve verb "/" = .notFound) := by
  refine ⟨fun h => ?_, fun h w hw hne => ?_, fun h hw => ?_⟩
  · simp [Mux.serve, hmt, List.isEmpty_iff, h]
  · simp [Mux.serve, hmt, List.isEmpty_iff, h, hw, hne]
  · simp [Mux.serve, hmt, List.isEmpty_iff, h, hw]

/-- Witness for C3: the root handler wins over `/*` when both exist, the
wildcard serves the root when only it exists, and an empty mux is
not-found at the root. -/
theorem c3_root_special_case_witness :
    muxC3both.serve "GET" "/" = .served muxC3both.get [] ∧
    muxC3wild.serve "GET" "/" =
      .served { children := [], handlers := [()], name := "*",
                pattern := "/*/" } [] ∧
    (Mux.new : Mux Unit).serve "GET" "/" = .notFound := by
  refine ⟨?_, ?_, ?_⟩
  · exact (c3_root_special_case muxC3both "GET" muxC3both.get rfl).1
      (by decide)
  · exact (c3_root_special_case muxC3wild "GET" muxC3wild.get rfl).2.1
      (by decide) _ rfl (by decide)
  · exact (c3_root_special_case Mux.new "GET" Tree.zero rfl).2.2 rfl rfl

/-- C8 counterexample: registering `/foo/{a}/x` and then `/foo/{b}/y`
under GET shares one named slot, but the second registration's parameter
name does NOT overwrite the binding name: a request for `/foo/Q/y` binds
under the first name "a", not under "b" as the claim states. -/
theorem c8_claim_counterexample :
    (muxC8.serve "GET" "/foo/Q/y").paramsOf = some [("a", "Q")] ∧
    (muxC8.serve "GET" "/foo/Q/y").paramsOf ≠ some [("b", "Q")] :=
  ⟨rfl, by decide⟩

/-- C8 amended: both patterns occupy the single shared named slot of the
node below `foo` (both continuations `x` and `y` hang off the same
dynamic child), the second registration succeeds, but the slot keeps the
FIRST registration's parameter name — `set` assigns a node name only
when it creates the node — so requests through either route bind under
"a" at serve time. -/
theorem c8_first_param_name_retained :
    ((Mux.new.on "GET" "/foo/{a}/x" [()]).1.on "GET" "/foo/{b}/y"
      [()]).2 = none ∧
    ((lookupA muxC8.get.children "foo/").bind
      (fun n => lookupA n.children dynamicKey)).map Tree.name = some "a" ∧
    (((lookupA muxC8.get.children "foo/").bind
      (fun n => lookupA n.children dynamicKey)).bind
      (fun d => lookupA d.children "x/")).isSome = true ∧
    (((lookupA muxC8.get.children "foo/").bind
      (fun n => lookupA n.children dynamicKey)).bind
      (fun d => lookupA d.children "y/")).isSome = true ∧
    (muxC8.serve "GET" "/foo/Q/x").patternOf = some "/foo/{a}/x/" ∧
    (muxC8.serve "GET" "/foo/Q/x").paramsOf = some [("a", "Q")] ∧
    (muxC8.serve "GET" "/foo/Q/y").patternOf = some "/foo/{b}/y/" ∧
    (muxC8.serve "GET" "/foo/Q/y").paramsOf = some [("a", "Q")] :=
  ⟨rfl, rfl, rfl, rfl, rfl, rfl, rfl, rfl⟩

/-- C10 counterexample: registering the wildcard pattern `/foo/*` with an
empty handler list succeeds, but a request that route would match does
not yield not-found — it panics (`handlers[0]` on a nil chain), refuting
"every request to that verb and path yields not-found". -/
theorem c10_claim_counterexample :
    (Mux.new.on "GET" "/foo/*" ([] : List Unit)).2 = none ∧
    (Mux.new.on "GET" "/foo/*" ([] : List Unit)).1.serve "GET" "/foo/baz" =
      .panicked ∧
    (Outcome.panicked : Outcome Unit) ≠ .notFound :=
  ⟨rfl, rfl, fun h => by cases h⟩

/-- C4 counterexample: in mux.go's `ServeHTTP` matcher, consuming the
final path segment at a node with no handler chain yields not-found even
though a proximate wildcard was recorded on the walk. With `/foo/*` and
`/foo/bar/baz` registered under GET, a request for `/foo/bar` ends at the
intermediate `bar` node (children but no handlers) while the wildcard
`/foo/*` has been recorded — yet the answer is not-found, not the
wildcard fallback the claim describes. -/
theorem c4_claim_counterexample :
    muxC4.serve "GET" "/foo/bar" = .notFound ∧
    ((lookupA muxC4.get.children "foo/").bind
      (fun n => lookupA n.children wildcardKey)).map Tree.pattern =
      some "/foo/*/" ∧
    ((lookupA muxC4.get.children "foo/").bind
      (fun n => lookupA n.children wildcardKey)).map
      (fun t => t.handlers.length) = some 1 :=
  ⟨rfl, rfl, rfl⟩

/-- C4 amended: the fall-back-to-recorded-wildcard termination rule holds
in the `find` matcher of bear.go, not in mux.go's `ServeHTTP`. In
`findLoop`, when the final component resolves to a node whose handler
chain is empty, the result is the tracked `wild` node with the
previously bound parameters; when the chain is non-empty the resolved
node itself is returned. (When no wildcard was ever recorded, `wild` is
the zero node `new(tree)`, whose empty chain makes `deploy` answer
not-found — so the match fails exactly then.) -/
theorem c4_find_falls_back_to_wildcard {H : Type}
    (cur : List (String × Tree H)) (c : String) (node wild : Tree H)
    (params : List (String × String)) (hl : lookupA cur c = some node) :
    (node.handlers = [] → findLoop [c] cur wild params = (some wild, params)) ∧
    (node.handlers ≠ [] → findLoop [c] cur wild params = (some node, params)) := by
  have hcur : cur.isEmpty = false := by
    cases cur with
    | nil => simp [lookupA] at hl
    | cons p rest => rfl
  constructor
  · intro h
    simp [findLoop, hcur, hl, List.isEmpty_iff, h]
  · intro h
    simp [findLoop, hcur, hl, List.isEmpty_iff, h]

/-- Witness for C4's amended theorem: a final segment `bar` resolving to
a bare node falls back to the recorded `/foo/*` wildcard with its
previously bound parameter, and the full `deploy` pipeline on the
`muxC4`-shaped tree serves the wildcard route for `/foo/bar`. -/
theorem c4_find_falls_back_to_wildcard_witness :
    findLoop ["bar/"] [("bar/", (Tree.zero : Tree Unit))]
      { children := [], handlers := [()], name := "*", pattern := "/foo/*/" }
      [("*", "bar")] =
      (some { children := [], handlers := [()], name := "*",
              pattern := "/foo/*/" }, [("*", "bar")]) ∧
    (deploy (some ((setGo ((setGo (Tree.zero : Tree Unit) "/foo/*" [()]).1)
      "/foo/bar/baz" [()]).1)) "/foo/bar").patternOf = some "/foo/*/" :=
  ⟨(c4_find_falls_back_to_wildcard [("bar/", (Tree.zero : Tree Unit))] "bar/"
      Tree.zero
      { children := [], handlers := [()], name := "*", pattern := "/foo/*/" }
      [("*", "bar")] rfl).1 rfl, rfl⟩

/-- The main induction for C5: if one pass of `set`'s component loop
succeeded with a non-empty chain, running the loop again over the same
components returns the duplicate error and leaves the children map
exactly as it was. -/
theorem setLoop_dup {H : Type} (pat pat2 : String) (h1 h2 : List H)
    (hne : h1 ≠ []) :
    ∀ (comps : List String) (cur cur1 : List (String × Tree H)) (w : Bool),
      comps ≠ [] →
      setLoop pat h1 comps cur = (cur1, w, none) →
      setLoop pat2 h2 comps cur1 = (cur1, false, some .dup) := by
  have hisE : h1.isEmpty = false := by
    cases h1 with
    | nil => exact absurd rfl hne
    | cons a l => rfl
  intro comps
  induction comps with
  | nil => intro _ _ _ h; exact absurd rfl h
  | cons c rest ih =>
    intro cur cur1 w _ hfirst
    by_cases hrest : rest = []
    · subst hrest
      cases hc : lookupA cur (classify c).1 with
      | some n =>
        simp only [setLoop, hc, if_true] at hfirst
        split at hfirst
        · simp at hfirst
        · simp only [Prod.mk.injEq] at hfirst
          obtain ⟨hcur1, -, -⟩ := hfirst
          subst hcur1
          simp [setLoop, lookupA_updA_self, hisE]
      | none =>
        simp only [setLoop, hc, if_true] at hfirst
        split at hfirst
        · simp at hfirst
        · simp only [Prod.mk.injEq] at hfirst
          obtain ⟨hcur1, -, -⟩ := hfirst
          subst hcur1
          simp [setLoop, lookupA_updA_self, hisE, updA_updA]
    · cases hc : lookupA cur (classify c).1 with
      | some n =>
        by_cases hkey : (classify c).1 = wildcardKey
        · rw [setLoop.eq_def] at hfirst
          simp [hc, if_neg hrest, hkey] at hfirst
        · rcases hq : setLoop pat h1 rest n.children with ⟨ch', w2, e2⟩
          rw [setLoop.eq_def] at hfirst
          simp only [hc, if_neg hrest, if_neg hkey, hq, Prod.mk.injEq] at hfirst
          obtain ⟨hcur1, hw, hee⟩ := hfirst
          subst hee
          have ihr := ih n.children ch' w2 hrest hq
          subst hcur1
          rw [setLoop.eq_def]
          simp only [lookupA_updA_self, if_neg hrest, if_neg hkey, ihr,
            updA_updA]
          simp
      | none =>
        by_cases hkey : (classify c).1 = wildcardKey
        · rw [setLoop.eq_def] at hfirst
          simp [hc, if_neg hrest, hkey] at hfirst
        · rcases hq : setLoop pat h1 rest
            (Tree.fresh (classify c).2 : Tree H).children with ⟨ch', w2, e2⟩
          rw [setLoop.eq_def] at hfirst
          simp only [hc, if_neg hrest, if_neg hkey, hq, Prod.mk.injEq] at hfirst
          obtain ⟨hcur1, hw, hee⟩ := hfirst
          subst hee
          have ihr := ih _ ch' w2 hrest hq
          subst hcur1
          rw [setLoop.eq_def]
          simp only [lookupA_updA_self, if_neg hrest, if_neg hkey, ihr,
            updA_updA]
          simp

/-- Lifting `setLoop_dup` through `setGo`: a second `set` of the same
pattern errors and returns the tree unchanged, for root patterns and for
any pattern with at least one component. -/
theorem setGo_dup {H : Type} (tr tr1 : Tree H) (p : String) (h1 h2 : List H)
    (w : Bool) (hne : h1 ≠ [])
    (hp : p = "/" ∨ p = "" ∨ (parsePattern p).2 ≠ [])
    (hfirst : setGo tr p h1 = (tr1, w, none)) :
    setGo tr1 p h2 = (tr1, false, some .dup) := by
  have hisE : h1.isEmpty = false := by
    cases h1 with
    | nil => exact absurd rfl hne
    | cons a l => rfl
  by_cases hroot : p = "/" ∨ p = ""
  · rw [setGo, if_pos hroot] at hfirst
    split at hfirst
    · simp at hfirst
    · simp only [Prod.mk.injEq] at hfirst
      obtain ⟨htr1, -, -⟩ := hfirst
      subst htr1
      rw [setGo, if_pos hroot]
      simp [hisE]
  · have hcomps : (parsePattern p).2 ≠ [] := by
      rcases hp with h | h | h
      · exact absurd (Or.inl h) hroot
      · exact absurd (Or.inr h) hroot
      · exact h
    rcases hq : setLoop (parsePattern p).1 h1 (parsePattern p).2 tr.children
      with ⟨ch', w2, e2⟩
    rw [setGo, if_neg hroot] at hfirst
    simp only [hq, Prod.mk.injEq] at hfirst
    obtain ⟨htr1, hw, hee⟩ := hfirst
    subst hee
    have hdup := setLoop_dup (parsePattern p).1 (parsePattern p).1 h1 h2 hne
      (parsePattern p).2 tr.children ch' w2 hcomps hq
    subst htr1
    rw [setGo, if_neg hroot]
    simp [hdup]

/-- For a recognized verb, `On` is its single-verb branch. -/
theorem on_eq_onVerb {H : Type} (m : Mux H) (verb p : String) (h : List H)
    (hv : verb ∈ verbs) : m.on verb p h = m.onVerb verb p h := by
  fin_cases hv <;> rfl

/-- Reading back the verb tree just stored. -/
theorem treeFor_setTree {H : Type} (m : Mux H) (verb : String) (t : Tree H)
    (hv : verb ∈ verbs) : (m.setTree verb t).treeFor verb = some t := by
  fin_cases hv <;> rfl

/-- The wildcard flag does not affect the verb table. -/
theorem treeFor_wild {H : Type} (m : Mux H) (verb : String) (b : Bool)
    (hv : verb ∈ verbs) :
    ({ m with wild := b } : Mux H).treeFor verb = m.treeFor verb := by
  fin_cases hv <;> rfl

/-- Storing back the tree a verb already maps to changes nothing. -/
theorem setTree_self {H : Type} (m : Mux H) (verb : String) (t : Tree H)
    (hv : verb ∈ verbs) (htf : m.treeFor verb = some t) :
    m.setTree verb t = m := by
  fin_cases hv <;>
    (simp only [Mux.treeFor, Option.some.injEq] at htf
     simp [Mux.setTree, ← htf])

/-- C5 counterexample: the claim quantifies over every pattern, but the
all-separator pattern `//` (whose normalized component list is empty)
registers nothing and returns no error on the first AND on the second
call — the duplicate registration is silently accepted, and `set`'s
"will never reach here" trailing return is in fact reached. -/
theorem c5_claim_counterexample :
    (Mux.new.on "GET" "//" [()]).2 = none ∧
    ((Mux.new.on "GET" "//" [()]).1.on "GET" "//" [()]).2 = none ∧
    (Mux.new.on "GET" "//" [()]).1.serve "GET" "/" = .notFound :=
  ⟨rfl, rfl, rfl⟩

/-- C5 amended: for every recognized verb and every pattern that is
either a root pattern or has at least one component after normalization,
registering the same verb-and-pattern pair a second time (the first
registration carrying a non-empty chain) returns the duplicate error and
leaves the mux — hence the stored chain, the pattern string, and every
request's outcome — exactly unchanged. -/
theorem c5_duplicate_registration_rejected {H : Type} (m m1 : Mux H)
    (verb p : String) (h1 h2 : List H) (hv : verb ∈ verbs) (hne : h1 ≠ [])
    (hp : p = "/" ∨ p = "" ∨ (parsePattern p).2 ≠ [])
    (hfirst : m.on verb p h1 = (m1, none)) :
    m1.on verb p h2 = (m1, some .dup) := by
  rcases htf : m.treeFor verb with _ | tr
  · rw [on_eq_onVerb m verb p h1 hv] at hfirst
    simp [Mux.onVerb, htf] at hfirst
  · rw [on_eq_onVerb m verb p h1 hv] at hfirst
    rw [on_eq_onVerb m1 verb p h2 hv]
    simp only [Mux.onVerb, htf] at hfirst
    rcases hq : setGo tr p h1 with ⟨tr2, w2, e2⟩
    rw [hq] at hfirst
    cases e2 with
    | some e => simp at hfirst
    | none =>
      simp only [Prod.mk.injEq] at hfirst
      obtain ⟨hm1, -⟩ := hfirst
      have htf1 : m1.treeFor verb = some tr2 := by
        rw [← hm1, treeFor_wild _ _ _ hv, treeFor_setTree _ _ _ hv]
      have hdup := setGo_dup tr tr2 p h1 h2 w2 hne hp hq
      simp only [Mux.onVerb, htf1, hdup]
      rw [setTree_self m1 verb tr2 hv htf1]

/-- Witness for C5's amended theorem: registering GET `/foo/{bar}` twice
fails the second time with the duplicate error, leaving the mux of the
first registration unchanged. -/
theorem c5_duplicate_registration_rejected_witness :
    ((Mux.new.on "GET" "/foo/{bar}" [()]).1.on "GET" "/foo/{bar}"
      [()] : Mux Unit × Option RegErr) =
      ((Mux.new.on "GET" "/foo/{bar}" [()]).1, some .dup) :=
  c5_duplicate_registration_rejected Mux.new
    (Mux.new.on "GET" "/foo/{bar}" [()]).1 "GET" "/foo/{bar}" [()] [()]
    (by decide) (by decide) (Or.inr (Or.inr (by decide))) rfl

/-- C10 amended: registering with an empty handler list succeeds and
stores an empty chain; for static and root patterns every request to
that path then yields not-found (the serve loop checks the chain before
invoking it), but for wildcard patterns a matching request panics,
because the wildcard invocation sites index `handlers[0]` without a nil
check. -/
theorem c10_zero_handler_registration :
    (Mux.new.on "GET" "/foo/bar" ([] : List Unit)).2 = none ∧
    (Mux.new.on "GET" "/foo/bar" ([] : List Unit)).1.serve "GET" "/foo/bar" =
      .notFound ∧
    (Mux.new.on "GET" "/foo/bar" ([] : List Unit)).1.serve "GET" "/foo/bar/" =
      .notFound ∧
    (Mux.new.on "GET" "/" ([] : List Unit)).2 = none ∧
    (Mux.new.on "GET" "/" ([] : List Unit)).1.serve "GET" "/" = .notFound ∧
    (Mux.new.on "GET" "/*" ([] : List Unit)).2 = none ∧
    (Mux.new.on "GET" "/*" ([] : List Unit)).1.serve "GET" "/" = .panicked ∧
    (Mux.new.on "GET" "/foo/*" ([] : List Unit)).1.serve "GET" "/foo/baz" =
      .panicked :=
  ⟨rfl, rfl, rfl, rfl, rfl, rfl, rfl, rfl⟩

/-- C7 counterexample: mux.go does not normalize incoming request paths
the way it normalizes patterns — `parsePath` keeps the empty segment of a
doubled separator that `parsePattern` collapses — and bear.go's
`sanitize` does not collapse every separator run into one: its
single-pass pair replacement turns three separators into two. -/
theorem c7_claim_counterexample :
    parsePath "/foo//bar" ≠ (parsePattern "/foo//bar").2 ∧
    sanitize "/a///b" ≠ "/a/b/" :=
  ⟨by decide, by decide⟩

/-- C7 amended: pattern normalization (`parsePattern`) collapses
duplicate separators, but an incoming path is split by `parsePath`
without any collapsing, so registering `/foo//bar` produces the route
`/foo/bar/` — which a request for `/foo/bar` reaches while a request for
the literally registered `/foo//bar` is not-found. In bear.go, patterns
and paths do share one normalization (`sanitize`), but it only replaces
non-overlapping separator pairs in a single pass: `//` becomes `/`,
while `///` becomes `//` rather than `/`. -/
theorem c7_normalization_behavior :
    parsePattern "/foo//bar" = parsePattern "/foo/bar" ∧
    parsePath "/foo//bar" = ["foo/", "/", "bar/"] ∧
    parsePath "/foo/bar" = ["foo/", "bar/"] ∧
    (Mux.new.on "GET" "/foo//bar" [()]).1.serve "GET" "/foo//bar" =
      .notFound ∧
    ((Mux.new.on "GET" "/foo//bar" [()]).1.serve "GET"
      "/foo/bar").patternOf = some "/foo/bar/" ∧
    sanitize "/a//b" = "/a/b/" ∧
    sanitize "/a///b" = "/a//b/" ∧
    split "/a//b" = split "/a/b" :=
  ⟨rfl, rfl, rfl, rfl, rfl, rfl, rfl, rfl⟩

/-- C9: a matched route's chain is invoked starting at index 0 with the
per-request context passed along; each call to Next invokes exactly the
immediately following handler once, with the same context (so scratch
keys set by earlier handlers are visible to later ones), and Next past
the end of the chain is a no-op, not an error. The first conjunct is the
general no-op law; the next two run the three-handler middleware chain —
the invocation log is `[0, 1, 2]` (each handler exactly once, in order)
and the final scratch state holds every key — with and without a trailing
Next in the last handler; the last conjunct checks, for every recognized
verb, that dispatching the middleware test's route reaches exactly this
chain with the expected bound parameters. -/
theorem c9_next_chain_semantics :
    (∀ (chain : Chain) (fuel : Nat) (ctx : MCtx),
      chain.length ≤ ctx.cursor + 1 →
      nextFn chain fuel ctx = ({ ctx with cursor := ctx.cursor + 1 }, [])) ∧
    dispatchChain chain3 16 =
      some (⟨[("one", 1), ("two", 2), ("last", 9)], 2⟩, [0, 1, 2]) ∧
    dispatchChain chain3b 16 =
      some (⟨[("one", 1), ("two", 2), ("last", 9)], 3⟩, [0, 1, 2]) ∧
    (∀ v ∈ verbs,
      ((muxC9 v).serve v "/foo/BAR/baz/QUX").chainOf = some chain3 ∧
      ((muxC9 v).serve v "/foo/BAR/baz/QUX").paramsOf =
        some [("bar", "BAR"), ("qux", "QUX")]) := by
  refine ⟨?_, rfl, rfl, ?_⟩
  · intro chain fuel ctx h
    have hd : chain.drop (ctx.cursor + 1) = [] := List.drop_eq_nil_of_le h
    simp [nextFn, hd]
  · intro v hv
    fin_cases hv <;> exact ⟨rfl, rfl⟩

/-- Witness for C9: the no-op law at the end of `chain3` (cursor 2 is
the last handler, so Next only bumps the cursor), and the route check at
the verb GET. -/
theorem c9_next_chain_semantics_witness :
    nextFn chain3 5 ⟨[], 2⟩ = (⟨[], 3⟩, []) ∧
    chain3.length ≤ 2 + 1 ∧
    ((muxC9 "GET").serve "GET" "/foo/BAR/baz/QUX").chainOf = some chain3 :=
  ⟨c9_next_chain_semantics.1 chain3 5 ⟨[], 2⟩ (by decide), by decide,
   (c9_next_chain_semantics.2.2.2 "GET" (by decide)).1⟩

theorem splitAfterSlash_cons_slash (l : List Char) :
    splitAfterSlash ('/' :: l) = ['/'] :: splitAfterSlash l := by
  simp [splitAfterSlash]

theorem splitAfterSlash_cons_other (c : Char) (l : List Char)
    (p : List Char) (ps : List (List Char)) (h : c ≠ '/')
    (hq : splitAfterSlash l = p :: ps) :
    splitAfterSlash (c :: l) = (c :: p) :: ps := by
  simp [splitAfterSlash, h, hq]

theorem splitAfterSlash_ne_nil (l : List Char) : splitAfterSlash l ≠ [] := by
  cases l with
  | nil => simp [splitAfterSlash]
  | cons c rest =>
    by_cases h : c = '/'
    · simp [splitAfterSlash, h]
    · simp only [splitAfterSlash, if_neg h]
      cases splitAfterSlash rest <;> simp

theorem appSlashLastC_cons (p : List Char) (ps : List (List Char))
    (h : ps ≠ []) : appSlashLastC (p :: ps) = p :: appSlashLastC ps := by
  cases ps with
  | nil => exact absurd rfl h
  | cons q qs => rfl

theorem appSlashLast_cons (p : String) (ps : List String)
    (h : ps ≠ []) : appSlashLast (p :: ps) = p :: appSlashLast ps := by
  cases ps with
  | nil => exact absurd rfl h
  | cons q qs => rfl

theorem splitAfterSlash_concat_slash (l : List Char) :
    splitAfterSlash (l ++ ['/']) =
      appSlashLastC (splitAfterSlash l) ++ [[]] := by
  induction l with
  | nil => rfl
  | cons c rest ih =>
    by_cases h : c = '/'
    · subst h
      rw [List.cons_append, splitAfterSlash_cons_slash,
        splitAfterSlash_cons_slash, ih,
        appSlashLastC_cons _ _ (splitAfterSlash_ne_nil rest)]
      simp
    · rcases hq : splitAfterSlash rest with _ | ⟨p, ps⟩
      · exact absurd hq (splitAfterSlash_ne_nil rest)
      · rw [hq] at ih
        cases ps with
        | nil =>
          rw [List.cons_append,
            splitAfterSlash_cons_other c (rest ++ ['/']) (p ++ ['/']) [[]] h
              (by rw [ih]; rfl),
            splitAfterSlash_cons_other c rest p [] h hq]
          simp [appSlashLastC]
        | cons q qs =>
          rw [List.cons_append,
            splitAfterSlash_cons_other c (rest ++ ['/']) p
              (appSlashLastC (q :: qs) ++ [[]]) h
              (by rw [ih, appSlashLastC_cons p (q :: qs) (by simp)]; rfl),
            splitAfterSlash_cons_other c rest p (q :: qs) h hq,
            appSlashLastC_cons (c :: p) (q :: qs) (by simp)]
          rfl
theorem mk_append (a b : List Char) :
    String.mk (a ++ b) = String.mk a ++ String.mk b := rfl

theorem map_mk_appSlashLastC (xs : List (List Char)) :
    (appSlashLastC xs).map String.mk = appSlashLast (xs.map String.mk) := by
  induction xs with
  | nil => rfl
  | cons p ps ih =>
    cases ps with
    | nil => simp [appSlashLastC, appSlashLast, mk_append]
    | cons q qs =>
      rw [appSlashLastC_cons p (q :: qs) (by simp)]
      simp only [List.map_cons]
      rw [appSlashLast_cons _ _ (by simp)]
      simp only [List.map_cons] at ih
      rw [ih]

theorem appSlashLast_drop_one (xs : List String) :
    (appSlashLast xs).drop 1 = appSlashLast (xs.drop 1) := by
  cases xs with
  | nil => rfl
  | cons p ps =>
    cases ps with
    | nil => rfl
    | cons q qs => rw [appSlashLast_cons p (q :: qs) (by simp)]; rfl

theorem appSlashLast_ne_nil (xs : List String) (h : xs ≠ []) :
    appSlashLast xs ≠ [] := by
  cases xs with
  | nil => exact absurd rfl h
  | cons p ps => cases ps with
    | nil => simp [appSlashLast]
    | cons q qs => rw [appSlashLast_cons p (q :: qs) (by simp)]; simp

theorem parsePath_concat_slash (s : String) (h1 : s.data ≠ [])
    (h2 : s.data.getLast? ≠ some '/') :
    parsePath (s ++ "/") = parsePath s := by
  have hdata : (s ++ "/").data = s.data ++ ['/'] := String.data_append s "/"
  rcases hl : s.data with _ | ⟨c, t⟩
  · exact absurd hl h1
  · rw [hl] at hdata h2
    have hoff : (c :: (t ++ ['/'])).getLast? = some '/' := by
      rw [← List.cons_append]; exact List.getLast?_concat _
    simp only [parsePath, hdata, hl, List.cons_append, hoff, h2, if_true,
      if_false, Nat.one_ne_zero, ite_false, ite_true]
    simp only [show ((1 : Nat) = 0) = False by simp, show ((1 : Nat) = 1) = True by simp,
      show ((0 : Nat) = 0) = True by simp, show ((0 : Nat) = 1) = False by simp,
      if_true, if_false, ite_true, ite_false]
    have hX : splitAfterSlash (c :: (t ++ ['/'])) =
        appSlashLastC (splitAfterSlash (c :: t)) ++ [[]] := by
      rw [← List.cons_append]
      exact splitAfterSlash_concat_slash (c :: t)
    rw [hX, List.map_append, map_mk_appSlashLastC]
    have hY : (splitAfterSlash (c :: t)).map String.mk ≠ [] := by
      intro hcon
      exact splitAfterSlash_ne_nil (c :: t) (List.map_eq_nil_iff.mp hcon)
    have hlen : 1 ≤ (appSlashLast ((splitAfterSlash (c :: t)).map String.mk)).length := by
      have := appSlashLast_ne_nil _ hY
      cases hz : appSlashLast ((splitAfterSlash (c :: t)).map String.mk) with
      | nil => exact absurd hz this
      | cons a l => simp
    by_cases hc : c = '/'
    · subst hc
      simp only [ite_true, if_true, show (('/' : Char) = '/') = True by simp]
      rw [List.drop_append_of_le_length hlen]
      show (_ ++ [String.mk []]).dropLast = _
      rw [List.dropLast_concat, appSlashLast_drop_one]
    · simp only [hc, ite_false, if_false, show ((c = '/')) = False by simp [hc]]
      rw [List.drop_append_of_le_length (Nat.zero_le _)]
      show (_ ++ [String.mk []]).dropLast = _
      rw [List.dropLast_concat]
      simp
theorem string_ext {a b : String} (h : a.data = b.data) : a = b := by
  cases a; cases b; cases h; rfl

theorem ne_empty_of_data_ne_nil {s : String} (h : s.data ≠ []) : s ≠ "" := by
  intro hcon
  subst hcon
  exact h rfl

theorem ne_slash_of_getLast {s : String} (h : s.data.getLast? ≠ some '/') :
    s ≠ "/" := by
  intro hcon
  subst hcon
  exact h rfl

theorem append_slash_ne_empty (s : String) : s ++ "/" ≠ "" := by
  intro hcon
  have := congrArg String.data hcon
  rw [String.data_append] at this
  simp at this

theorem append_slash_ne_slash {s : String} (h : s.data ≠ []) :
    s ++ "/" ≠ "/" := by
  intro hcon
  have := congrArg String.data hcon
  rw [String.data_append] at this
  rcases hl : s.data with _ | ⟨c, t⟩
  · exact h hl
  · rw [hl] at this
    simp at this

theorem withBoundarySlashes_concat_slash (s : String) (h1 : s.data ≠ [])
    (h2 : s.data.getLast? ≠ some '/') :
    withBoundarySlashes (s ++ "/") = withBoundarySlashes s := by
  have hdata : (s ++ "/").data = s.data ++ ['/'] := String.data_append s "/"
  have hhead : (s ++ "/").data.head? = s.data.head? := by
    rw [hdata]
    cases hl : s.data with
    | nil => exact absurd hl h1
    | cons c t => rfl
  have hlast : (s ++ "/").data.getLast? = some '/' := by
    rw [hdata]; exact List.getLast?_concat _
  rw [withBoundarySlashes, withBoundarySlashes]
  by_cases hh : s.data.head? = some '/'
  · simp only [hhead, hh, ite_true, if_pos rfl]
    rw [if_pos hlast]
    rw [if_neg h2]
  · simp only [hhead, hh, ite_false, if_neg hh]
    have hlast2 : ("/" ++ (s ++ "/")).data.getLast? = some '/' := by
      rw [String.data_append]
      rcases hl : (s ++ "/").data with _ | ⟨c, t⟩
      · rw [hdata] at hl; simp at hl
      · rw [← hl]
        have : (s ++ "/").data ≠ [] := by rw [hdata]; simp
        rw [List.getLast?_append]
        rw [hlast]
        rfl
    have hlast3 : ("/" ++ s).data.getLast? ≠ some '/' := by
      rw [String.data_append]
      rcases hl : s.data with _ | ⟨c, t⟩
      · exact absurd hl h1
      · rw [← hl, List.getLast?_append, hl]
        cases hg : (c :: t).getLast? with
        | none => simp at hg
        | some a =>
          rw [hl] at h2
          rw [hg] at h2
          simpa using h2
    rw [if_pos hlast2, if_neg hlast3]
    apply string_ext
    rw [String.data_append, String.data_append, String.data_append,
      String.data_append, List.append_assoc]
theorem parsePattern_concat_slash (s : String) (h1 : s.data ≠ [])
    (h2 : s.data.getLast? ≠ some '/') :
    parsePattern (s ++ "/") = parsePattern s := by
  rw [parsePattern, parsePattern, withBoundarySlashes_concat_slash s h1 h2]

theorem setGo_concat_slash {H : Type} (tr : Tree H) (q : String) (h : List H)
    (h1 : q.data ≠ []) (h2 : q.data.getLast? ≠ some '/') :
    setGo tr (q ++ "/") h = setGo tr q h := by
  have hq1 : q ≠ "" := ne_empty_of_data_ne_nil h1
  have hq2 : q ≠ "/" := ne_slash_of_getLast h2
  rw [setGo, setGo,
    if_neg (by
      intro hcon
      rcases hcon with hcon | hcon
      · exact append_slash_ne_slash h1 hcon
      · exact append_slash_ne_empty q hcon),
    if_neg (by
      intro hcon
      rcases hcon with hcon | hcon
      · exact hq2 hcon
      · exact hq1 hcon),
    parsePattern_concat_slash q h1 h2]

theorem onVerb_concat_slash {H : Type} (m : Mux H) (verb : String)
    (q : String) (h : List H) (h1 : q.data ≠ [])
    (h2 : q.data.getLast? ≠ some '/') :
    m.onVerb verb (q ++ "/") h = m.onVerb verb q h := by
  rw [Mux.onVerb, Mux.onVerb]
  cases m.treeFor verb with
  | none => rfl
  | some tr => simp only [setGo_concat_slash tr q h h1 h2]

theorem onList_concat_slash {H : Type} (vs : List String) (m : Mux H)
    (q : String) (h : List H) (h1 : q.data ≠ [])
    (h2 : q.data.getLast? ≠ some '/') :
    m.onList vs (q ++ "/") h = m.onList vs q h := by
  induction vs generalizing m with
  | nil => rfl
  | cons v rest ih =>
    rw [Mux.onList, Mux.onList, onVerb_concat_slash m v q h h1 h2]
    cases Mux.onVerb m v q h with
    | mk m' e =>
      cases e with
      | some err => rfl
      | none => exact ih m'

theorem on_concat_slash {H : Type} (m : Mux H) (verb : String) (q : String)
    (h : List H) (h1 : q.data ≠ []) (h2 : q.data.getLast? ≠ some '/') :
    m.on verb (q ++ "/") h = m.on verb q h := by
  rw [Mux.on, Mux.on]
  by_cases hv : verb = "*"
  · rw [if_pos hv, if_pos hv, onList_concat_slash verbs m q h h1 h2]
  · rw [if_neg hv, if_neg hv, onVerb_concat_slash m verb q h h1 h2]

theorem serve_concat_slash {H : Type} (m : Mux H) (v : String) (s : String)
    (h1 : s.data ≠ []) (h2 : s.data.getLast? ≠ some '/') :
    m.serve v (s ++ "/") = m.serve v s := by
  rw [Mux.serve, Mux.serve]
  have hA : ¬(s ++ "/" = "/" ∨ s ++ "/" = "") := by
    intro hcon
    rcases hcon with hcon | hcon
    · exact append_slash_ne_slash h1 hcon
    · exact append_slash_ne_empty s hcon
  have hB : ¬(s = "/" ∨ s = "") := by
    intro hcon
    rcases hcon with hcon | hcon
    · exact ne_slash_of_getLast h2 hcon
    · exact ne_empty_of_data_ne_nil h1 hcon
  cases m.treeFor v with
  | none => rfl
  | some tr =>
    simp only [if_neg hA, if_neg hB, parsePath_concat_slash s h1 h2]

/-- C6: a trailing path separator is always implied. For every pattern
and every path (nonempty, not already ending with a separator),
registration with and without the trailing separator produces identical
muxes under every verb, and a request with and without the trailing
separator has the identical outcome — the same route and the same bound
parameters — on every mux and verb. -/
theorem c6_trailing_slash_implied {H : Type} (q s : String)
    (hq1 : q.data ≠ []) (hq2 : q.data.getLast? ≠ some '/')
    (hs1 : s.data ≠ []) (hs2 : s.data.getLast? ≠ some '/') :
    (∀ (m : Mux H) (verb : String) (h : List H),
      m.on verb (q ++ "/") h = m.on verb q h) ∧
    (∀ (m : Mux H) (v : String), m.serve v (s ++ "/") = m.serve v s) :=
  ⟨fun m verb h => on_concat_slash m verb q h hq1 hq2,
   fun m v => serve_concat_slash m v s hs1 hs2⟩

/-- Witness for C6 at pattern and path `/foo/bar`: registering with the
trailing separator equals registering without it, and requesting with
the trailing separator serves the same outcome, which is the registered
route. -/
theorem c6_trailing_slash_implied_witness :
    (Mux.new.on "GET" ("/foo/bar" ++ "/") [()] : Mux Unit × Option RegErr) =
      Mux.new.on "GET" "/foo/bar" [()] ∧
    (Mux.new.on "GET" "/foo/bar" [()]).1.serve "GET" ("/foo/bar" ++ "/") =
      (Mux.new.on "GET" "/foo/bar" [()]).1.serve "GET" "/foo/bar" ∧
    ((Mux.new.on "GET" "/foo/bar" [()]).1.serve "GET"
      "/foo/bar").patternOf = some "/foo/bar/" :=
  ⟨(c6_trailing_slash_implied "/foo/bar" "/foo/bar" (by decide) (by decide)
      (by decide) (by decide)).1 Mux.new "GET" [()],
   (c6_trailing_slash_implied "/foo/bar" "/foo/bar" (by decide) (by decide)
      (by decide) (by decide)).2 (Mux.new.on "GET" "/foo/bar" [()]).1 "GET",
   rfl⟩

end Bear


